import Mathlib

/-!
Verification of the markitdown-js converter dispatch registry and
tree-rewrite / section-segmentation components, as a shallow embedding.

The dispatcher (`MarkItDown._convert` in src/markitdown.ts) sorts a copy of
the registered converter list by ascending numeric priority with JavaScript's
`Array.prototype.sort`, which is guaranteed stable (ES2019); the comparator is
`(a, b) => a.priority - b.priority`.  We model priorities as integers and the
stable sort as an insertion sort, which produces the unique
ascending-by-priority permutation that preserves the relative order of
equal-priority elements — i.e. exactly the result of any stable sort.

A converter's `convert(filePath, options)` call can throw, return `null`
("not applicable"), or return a `{title, textContent}` result.  During one
dispatch the options other than `fileExtension` are fixed, so a converter is
modelled as a function of the file path and the extension.
-/

namespace MarkItDownJS

/-- `DocumentConverterResult` (src/types/document.ts): `{ title: string | null;
textContent: string }`.  The `null` overall result is modelled by `Option`
at use sites. -/
structure ConverterResult where
  title : Option String
  textContent : String
deriving Repr, DecidableEq

/-- The observable outcome of one `converter.convert(filePath, options)` call:
it may throw (with an error message), return `null` (not applicable), or
return a result. -/
inductive ConvertOutcome where
  | throws (msg : String)
  | nullResult
  | success (r : ConverterResult)
deriving Repr, DecidableEq

/-- `true` exactly for the throwing outcome. -/
def ConvertOutcome.isThrows : ConvertOutcome → Bool
  | .throws _ => true
  | _ => false

/-- JavaScript `String.prototype.trim()`: strip whitespace from both ends
(modelled over the character list so that it evaluates by kernel
reduction). -/
def jsTrim (s : String) : String :=
  String.mk (((s.toList.dropWhile Char.isWhitespace).reverse.dropWhile
    Char.isWhitespace).reverse)

/-- JavaScript `String.prototype.toLowerCase()` on ASCII data. -/
def jsToLower (s : String) : String :=
  String.mk (s.toList.map Char.toLower)

/-- A registered converter (`DocumentConverter`, src/converters/document.ts):
a numeric `priority` (lower values are tried first) and the `convert`
behaviour as a function of file path and file extension.
`isZipConverter` models the JavaScript `instanceof ZipConverter` test used by
the archive expander's self-exclusion. -/
structure Converter where
  priority : Int
  isZipConverter : Bool
  convert : String → String → ConvertOutcome

/-- Insertion step of the stable ascending sort: the new element is placed
before the first element whose priority is `≥` its own, so every element
passed over has a strictly smaller priority and the relative order of
equal-priority elements is preserved. -/
def insertByPriority (c : Converter) : List Converter → List Converter
  | [] => [c]
  | d :: ds =>
    if c.priority ≤ d.priority then c :: d :: ds else d :: insertByPriority c ds

/-- Model of `[...this._pageConverters].sort((a, b) => a.priority - b.priority)`
(src/markitdown.ts, `_convert`): a stable sort by ascending priority. -/
def sortByPriority : List Converter → List Converter
  | [] => []
  | c :: cs => insertByPriority c (sortByPriority cs)

/-- Inner loop of `MarkItDown._convert` for one candidate extension: call each
converter in order; a thrown error is logged and skipped, a `null` result is
skipped, and the first non-null result is returned. -/
def tryConverters (fp ext : String) : List Converter → Option ConverterResult
  | [] => none
  | c :: cs =>
    match c.convert fp ext with
    | .success r => some r
    | _ => tryConverters fp ext cs

/-- Outer loop of `MarkItDown._convert`: candidate extensions in caller order,
each tried against the whole sorted converter list. -/
def tryExtensions (sorted : List Converter) (fp : String) : List String → Option ConverterResult
  | [] => none
  | ext :: exts =>
    match tryConverters fp ext sorted with
    | some r => some r
    | none => tryExtensions sorted fp exts

/-- The message of the `UnsupportedFormat` error thrown by `_convert`. -/
def noConverterMsg (fp : String) : String :=
  "Cannot convert " ++ fp ++ ". No suitable converter found."

/-- `MarkItDown._convert(filePath, extensions, options)`: sort a copy of the
registered list by ascending priority (stable), try every extension against
every converter in that order, return the first non-null result, and throw
the `UnsupportedFormat` error if everything is exhausted. -/
def mdConvert (converters : List Converter) (fp : String) (extensions : List String) :
    Except String ConverterResult :=
  match tryExtensions (sortByPriority converters) fp extensions with
  | some r => .ok r
  | none => .error (noConverterMsg fp)

/-- `MarkItDown.registerConverter` (src/markitdown.ts): `unshift`, i.e.
insertion at the head of the registered list. -/
def registerConverter (converter : Converter) (pageConverters : List Converter) :
    List Converter :=
  converter :: pageConverters

/- Basic facts about the stable sort. -/

theorem mem_insertByPriority {a c : Converter} {l : List Converter} :
    a ∈ insertByPriority c l ↔ a = c ∨ a ∈ l := by
  induction l with
  | nil => simp [insertByPriority]
  | cons d ds ih =>
    by_cases h : c.priority ≤ d.priority
    · simp [insertByPriority, h]
    · simp [insertByPriority, h, ih]
      tauto

theorem mem_sortByPriority {a : Converter} {l : List Converter} :
    a ∈ sortByPriority l ↔ a ∈ l := by
  induction l with
  | nil => simp [sortByPriority]
  | cons c cs ih =>
    simp [sortByPriority, mem_insertByPriority, ih]

/-- The sorted list is pairwise ascending in priority. -/
theorem pairwise_insertByPriority {c : Converter} {l : List Converter}
    (hl : l.Pairwise (fun a b => a.priority ≤ b.priority)) :
    (insertByPriority c l).Pairwise (fun a b => a.priority ≤ b.priority) := by
  induction l with
  | nil => simp [insertByPriority]
  | cons d ds ih =>
    rcases List.pairwise_cons.mp hl with ⟨hd, hds⟩
    by_cases h : c.priority ≤ d.priority
    · rw [insertByPriority, if_pos h]
      refine List.pairwise_cons.mpr ⟨?_, hl⟩
      intro a ha
      rcases List.mem_cons.mp ha with rfl | ha
      · exact h
      · exact le_trans h (hd a ha)
    · rw [insertByPriority, if_neg h]
      refine List.pairwise_cons.mpr ⟨?_, ih hds⟩
      intro a ha
      rcases mem_insertByPriority.mp ha with rfl | ha
      · exact le_of_lt (lt_of_not_le h)
      · exact hd a ha

theorem pairwise_sortByPriority (l : List Converter) :
    (sortByPriority l).Pairwise (fun a b => a.priority ≤ b.priority) := by
  induction l with
  | nil => simp [sortByPriority]
  | cons c cs ih => exact pairwise_insertByPriority ih

/- Facts about the per-extension converter loop. -/

theorem tryConverters_eq_some {fp ext : String} {l : List Converter} {r : ConverterResult}
    (h : tryConverters fp ext l = some r) :
    ∃ l₁ c l₂, l = l₁ ++ c :: l₂ ∧ c.convert fp ext = .success r ∧
      ∀ d ∈ l₁, ∀ r', d.convert fp ext ≠ .success r' := by
  induction l with
  | nil => simp [tryConverters] at h
  | cons c cs ih =>
    rw [tryConverters] at h
    cases hc : c.convert fp ext with
    | success r' =>
      rw [hc] at h
      simp only [Option.some.injEq] at h
      subst h
      exact ⟨[], c, cs, by simp, hc, by simp⟩
    | throws msg =>
      rw [hc] at h
      rcases ih h with ⟨l₁, c', l₂, hsplit, hsucc, hfail⟩
      refine ⟨c :: l₁, c', l₂, by simp [hsplit], hsucc, ?_⟩
      intro d hd r'
      rcases List.mem_cons.mp hd with rfl | hd
      · simp [hc]
      · exact hfail d hd r'
    | nullResult =>
      rw [hc] at h
      rcases ih h with ⟨l₁, c', l₂, hsplit, hsucc, hfail⟩
      refine ⟨c :: l₁, c', l₂, by simp [hsplit], hsucc, ?_⟩
      intro d hd r'
      rcases List.mem_cons.mp hd with rfl | hd
      · simp [hc]
      · exact hfail d hd r'

theorem tryConverters_eq_none {fp ext : String} {l : List Converter} :
    tryConverters fp ext l = none ↔ ∀ c ∈ l, ∀ r, c.convert fp ext ≠ .success r := by
  induction l with
  | nil => simp [tryConverters]
  | cons c cs ih =>
    rw [tryConverters]
    cases hc : c.convert fp ext with
    | success r => simp [hc]
    | throws msg =>
      simp only [ih]
      constructor
      · intro h d hd r
        rcases List.mem_cons.mp hd with rfl | hd
        · simp [hc]
        · exact h d hd r
      · intro h d hd r
        exact h d (List.mem_cons_of_mem c hd) r
    | nullResult =>
      simp only [ih]
      constructor
      · intro h d hd r
        rcases List.mem_cons.mp hd with rfl | hd
        · simp [hc]
        · exact h d hd r
      · intro h d hd r
        exact h d (List.mem_cons_of_mem c hd) r

theorem tryConverters_mem_success {fp ext : String} {l : List Converter} {r : ConverterResult}
    (h : tryConverters fp ext l = some r) :
    ∃ c ∈ l, c.convert fp ext = .success r := by
  rcases tryConverters_eq_some h with ⟨l₁, c, l₂, hsplit, hsucc, -⟩
  exact ⟨c, by simp [hsplit], hsucc⟩

theorem tryExtensions_eq_some {sorted : List Converter} {fp : String} {exts : List String}
    {r : ConverterResult} (h : tryExtensions sorted fp exts = some r) :
    ∃ ext ∈ exts, tryConverters fp ext sorted = some r := by
  induction exts with
  | nil => simp [tryExtensions] at h
  | cons ext rest ih =>
    rw [tryExtensions] at h
    cases he : tryConverters fp ext sorted with
    | some r' =>
      rw [he] at h
      simp only [Option.some.injEq] at h
      subst h
      exact ⟨ext, by simp, he⟩
    | none =>
      rw [he] at h
      rcases ih h with ⟨e, hmem, he'⟩
      exact ⟨e, List.mem_cons_of_mem ext hmem, he'⟩

theorem tryExtensions_eq_none {sorted : List Converter} {fp : String} {exts : List String} :
    tryExtensions sorted fp exts = none ↔ ∀ ext ∈ exts, tryConverters fp ext sorted = none := by
  induction exts with
  | nil => simp [tryExtensions]
  | cons ext rest ih =>
    rw [tryExtensions]
    cases he : tryConverters fp ext sorted with
    | some r' =>
      simp only []
      constructor
      · intro h; cases h
      · intro h
        have := h ext (by simp)
        rw [he] at this
        cases this
    | none =>
      simp only [ih]
      constructor
      · intro h e hmem
        rcases List.mem_cons.mp hmem with rfl | hmem
        · exact he
        · exact h e hmem
      · intro h e hmem
        exact h e (List.mem_cons_of_mem ext hmem)

/-- C1: For a registered converter list with pairwise-distinct priorities, a
successful dispatch (`MarkItDown._convert` returning a result) returns a
result produced by the converter with the lowest priority value among all
converters that return a non-null result for the file and the extension that
was dispatched; every other succeeding converter has a strictly larger
priority. -/
theorem c1_lowest_priority_wins (cs : List Converter) (fp : String) (exts : List String)
    (r : ConverterResult)
    (hdist : cs.Pairwise (fun a b => a.priority ≠ b.priority))
    (hok : mdConvert cs fp exts = .ok r) :
    ∃ ext ∈ exts, ∃ c ∈ cs, c.convert fp ext = .success r ∧
      (∀ c' ∈ cs, (∃ r', c'.convert fp ext = .success r') → c.priority ≤ c'.priority) ∧
      (∀ c' ∈ cs, (∃ r', c'.convert fp ext = .success r') → c' ≠ c →
        c.priority < c'.priority) := by
  rw [mdConvert] at hok
  cases ht : tryExtensions (sortByPriority cs) fp exts with
  | none => rw [ht] at hok; cases hok
  | some r' =>
    rw [ht] at hok
    simp only [Except.ok.injEq] at hok
    subst hok
    rcases tryExtensions_eq_some ht with ⟨ext, hext, htc⟩
    rcases tryConverters_eq_some htc with ⟨l₁, c, l₂, hsplit, hsucc, hfail⟩
    have hsorted := pairwise_sortByPriority cs
    rw [hsplit] at hsorted
    have hc_mem : c ∈ cs := by
      rw [← mem_sortByPriority, hsplit]; simp
    have hle : ∀ c' ∈ cs, (∃ r', c'.convert fp ext = .success r') → c.priority ≤ c'.priority := by
      intro c' hc' ⟨r'', hr''⟩
      have hc's : c' ∈ l₁ ++ c :: l₂ := by rw [← hsplit, mem_sortByPriority]; exact hc'
      rcases List.mem_append.mp hc's with h1 | h2
      · exact absurd hr'' (hfail c' h1 r'')
      · rcases List.mem_cons.mp h2 with rfl | h2
        · exact le_refl _
        · have := (List.pairwise_append.mp hsorted).2.1
          exact (List.pairwise_cons.mp this).1 c' h2
    refine ⟨ext, hext, c, hc_mem, hsucc, hle, ?_⟩
    intro c' hc' hsucc' hne
    have h1 : c.priority ≤ c'.priority := hle c' hc' hsucc'
    have h2 : c.priority ≠ c'.priority := by
      have hsym : Symmetric (fun a b : Converter => a.priority ≠ b.priority) := by
        intro a b h; exact h.symm
      exact hdist.forall hsym hc_mem hc' (fun h => hne h.symm)
    exact lt_of_le_of_ne h1 h2

/-- Priority-0 stub converter that always succeeds with text "low". -/
def wLow : Converter :=
  ⟨0, false, fun _ _ => .success ⟨none, "low"⟩⟩

/-- Priority-10 stub converter that always succeeds with text "high". -/
def wHigh : Converter :=
  ⟨10, false, fun _ _ => .success ⟨none, "high"⟩⟩

/-- Witness for C1 at a concrete input: two distinct-priority converters that
both succeed; dispatch returns the priority-0 converter's result. -/
theorem c1_lowest_priority_wins_witness :
    ([wHigh, wLow] : List Converter).Pairwise (fun a b => a.priority ≠ b.priority) ∧
    mdConvert [wHigh, wLow] "file.x" [".x"] = .ok ⟨none, "low"⟩ ∧
    (∃ ext ∈ [".x"], ∃ c ∈ [wHigh, wLow], c.convert "file.x" ext = .success ⟨none, "low"⟩ ∧
      (∀ c' ∈ [wHigh, wLow], (∃ r', c'.convert "file.x" ext = .success r') →
        c.priority ≤ c'.priority) ∧
      (∀ c' ∈ [wHigh, wLow], (∃ r', c'.convert "file.x" ext = .success r') → c' ≠ c →
        c.priority < c'.priority)) := by
  refine ⟨?_, ?_, ?_⟩
  · simp [wHigh, wLow]
  · rfl
  · exact c1_lowest_priority_wins [wHigh, wLow] "file.x" [".x"] ⟨none, "low"⟩
      (by simp [wHigh, wLow]) rfl

/- Stability of the dispatch sort, expressed by filtering at a fixed
priority value. -/

theorem filter_insertByPriority_self (c : Converter) (l : List Converter) :
    (insertByPriority c l).filter (fun d => d.priority == c.priority) =
      c :: l.filter (fun d => d.priority == c.priority) := by
  induction l with
  | nil => simp [insertByPriority]
  | cons d ds ih =>
    by_cases h : c.priority ≤ d.priority
    · rw [insertByPriority, if_pos h]
      simp
    · rw [insertByPriority, if_neg h]
      have hne : (d.priority == c.priority) = false := by
        simp only [beq_eq_false_iff_ne, ne_eq]
        intro he
        exact h (le_of_eq he.symm)
      simp [List.filter_cons, hne, ih]

theorem filter_insertByPriority_ne (c : Converter) (l : List Converter) {p : Int}
    (hp : c.priority ≠ p) :
    (insertByPriority c l).filter (fun d => d.priority == p) =
      l.filter (fun d => d.priority == p) := by
  induction l with
  | nil => simp [insertByPriority, hp]
  | cons d ds ih =>
    by_cases h : c.priority ≤ d.priority
    · rw [insertByPriority, if_pos h]
      have hne : (c.priority == p) = false := by simpa using hp
      simp [List.filter_cons, hne]
    · rw [insertByPriority, if_neg h]
      simp only [List.filter_cons, ih]

/-- The dispatch sort is stable: the subsequence of converters with any given
priority value is unchanged by sorting. -/
theorem sortByPriority_filter (l : List Converter) (p : Int) :
    (sortByPriority l).filter (fun d => d.priority == p) =
      l.filter (fun d => d.priority == p) := by
  induction l with
  | nil => simp [sortByPriority]
  | cons c cs ih =>
    rw [sortByPriority]
    by_cases h : c.priority = p
    · have h1 := filter_insertByPriority_self c (sortByPriority cs)
      rw [h] at h1
      have hc : (c.priority == p) = true := by simpa using h
      rw [h1, ih]
      simp [List.filter_cons, hc]
    · rw [filter_insertByPriority_ne c _ h, ih]
      have hc : (c.priority == p) = false := by simpa using h
      simp [List.filter_cons, hc]

theorem insertByPriority_split (c : Converter) (l : List Converter) :
    ∃ l₁ l₂, insertByPriority c l = l₁ ++ c :: l₂ ∧
      ∀ d ∈ l₁, d.priority < c.priority ∧ d ∈ l := by
  induction l with
  | nil => exact ⟨[], [], by simp [insertByPriority], by simp⟩
  | cons d ds ih =>
    by_cases h : c.priority ≤ d.priority
    · exact ⟨[], d :: ds, by rw [insertByPriority, if_pos h]; simp, by simp⟩
    · rcases ih with ⟨l₁, l₂, heq, hall⟩
      refine ⟨d :: l₁, l₂, ?_, ?_⟩
      · rw [insertByPriority, if_neg h, heq]; simp
      · intro e he
        rcases List.mem_cons.mp he with rfl | he
        · exact ⟨lt_of_not_le h, by simp⟩
        · exact ⟨(hall e he).1, List.mem_cons_of_mem d (hall e he).2⟩

/-- C2: Registration (`registerConverter` = `unshift`) inserts at the head of
the list and the dispatch sort is stable on priority, so the newly (= most
recently) registered converter is attempted before every converter that
shares its priority: in the sorted dispatch order, every converter tried
before it has a strictly smaller priority.  Additionally, restricted to any
single priority value, sorting preserves the registered (most-recent-first)
order. -/
theorem c2_most_recent_registration_wins_ties (c : Converter) (pcs : List Converter) :
    (∃ l₁ l₂, sortByPriority (registerConverter c pcs) = l₁ ++ c :: l₂ ∧
      ∀ d ∈ l₁, d.priority < c.priority ∧ d ∈ pcs) ∧
    (∀ p : Int, (sortByPriority (registerConverter c pcs)).filter (fun d => d.priority == p) =
      (registerConverter c pcs).filter (fun d => d.priority == p)) := by
  constructor
  · rw [registerConverter, sortByPriority]
    rcases insertByPriority_split c (sortByPriority pcs) with ⟨l₁, l₂, heq, hall⟩
    exact ⟨l₁, l₂, heq, fun d hd =>
      ⟨(hall d hd).1, mem_sortByPriority.mp (hall d hd).2⟩⟩
  · intro p
    exact sortByPriority_filter (registerConverter c pcs) p

/-- C3: The dispatcher's terminal outcomes.  A converter that throws is
skipped and the loop continues with the next converter (first conjunct); and
every dispatch either returns a result that some converter produced for some
candidate extension, or — exactly when no converter returns a non-null result
for any candidate extension — fails with the `UnsupportedFormat` error
message `Cannot convert <path>. No suitable converter found.` (second
conjunct). -/
theorem c3_dispatch_terminal_outcomes (cs : List Converter) (fp : String)
    (exts : List String) :
    (∀ (c : Converter) (cs' : List Converter) (ext msg : String),
      c.convert fp ext = ConvertOutcome.throws msg →
      tryConverters fp ext (c :: cs') = tryConverters fp ext cs') ∧
    ((∃ r, mdConvert cs fp exts = .ok r ∧
        ∃ ext ∈ exts, ∃ c ∈ cs, c.convert fp ext = .success r) ∨
      (mdConvert cs fp exts = .error (noConverterMsg fp) ∧
        ∀ ext ∈ exts, ∀ c ∈ cs, ∀ r, c.convert fp ext ≠ .success r)) := by
  constructor
  · intro c cs' ext msg h
    rw [tryConverters, h]
  · cases ht : tryExtensions (sortByPriority cs) fp exts with
    | some r =>
      left
      refine ⟨r, by rw [mdConvert, ht], ?_⟩
      rcases tryExtensions_eq_some ht with ⟨ext, hext, htc⟩
      rcases tryConverters_mem_success htc with ⟨c, hc, hsucc⟩
      exact ⟨ext, hext, c, mem_sortByPriority.mp hc, hsucc⟩
    | none =>
      right
      refine ⟨by rw [mdConvert, ht], ?_⟩
      intro ext hext c hc r
      have := (tryConverters_eq_none.mp (tryExtensions_eq_none.mp ht ext hext)) c
        (mem_sortByPriority.mpr hc) r
      exact this

/-- Stub converter that always throws. -/
def wThrow : Converter :=
  ⟨0, false, fun _ _ => .throws "boom"⟩

/-- Witness for C3 at a concrete input: a throwing converter at the head of
the list is skipped, and the loop continues with the remaining converters. -/
theorem c3_dispatch_terminal_outcomes_witness :
    tryConverters "file.x" ".x" [wThrow, wLow] = tryConverters "file.x" ".x" [wLow] :=
  (c3_dispatch_terminal_outcomes [] "file.x" []).1 wThrow [wLow] ".x" "boom" rfl

/-!
Section segmentation (`WikipediaConverter.parseSections`,
src/converters/wikipedia.ts).  The walk over the top-level children of the
main content element observes, for each child node, its `tagName` (empty
string for untagged/text nodes, which the walk skips), the text of its
`.mw-headline` descendant if any, its `textContent`, and its `outerHTML`.
The call `this._turndown.convert(currentHtml)` renders buffered HTML to
Markdown through the external Turndown engine and is abstracted as a
function parameter `convert`; the section structure (count, titles, levels,
anchor ids) does not depend on it.
-/

/-- Observable fields of a top-level child node of the Wikipedia main
content, as used by `parseSections`.  `textContent` of a parsed element node
is always a string, possibly empty. -/
structure WikiNode where
  tagName : String
  headlineText : Option String
  textContent : String
  outerHTML : String

/-- `tagName.match(/^H[1-6]$/i)` as a Boolean. -/
def isHeadingTag (t : String) : Bool :=
  match t.toList with
  | [c0, c1] => (c0 == 'H' || c0 == 'h') &&
      (c1 == '1' || c1 == '2' || c1 == '3' || c1 == '4' || c1 == '5' || c1 == '6')
  | _ => false

/-- `tagName && tagName[1] ? parseInt(tagName[1]) : 5`: for heading tags the
second character is the digit `1`–`6` and `parseInt` yields its value. -/
def headingLevel (t : String) : Int :=
  match t.toList with
  | _ :: c1 :: _ => (c1.toNat : Int) - ('0'.toNat : Int)
  | _ => 5

/-- `true` for lowercase ASCII letters and digits — the character class kept
by `_createAnchorId`'s regex after lowercasing. -/
def isAnchorAlnum (c : Char) : Bool :=
  ('a' ≤ c && c ≤ 'z') || ('0' ≤ c && c ≤ '9')

/-- Replace each maximal run of non-alphanumeric characters by a single
hyphen (the global regex replace `/[^a-z0-9]+/g` → `"-"`); the Boolean flag
records whether the previous character belonged to such a run, so that only
the first character of a run emits the hyphen. -/
def collapseNonAlnumAux : Bool → List Char → List Char
  | _, [] => []
  | prevDash, c :: cs =>
    if isAnchorAlnum c then c :: collapseNonAlnumAux false cs
    else if prevDash then collapseNonAlnumAux true cs
    else '-' :: collapseNonAlnumAux true cs

/-- `WikipediaConverter._createAnchorId`:
`text.toLowerCase().replace(/[^a-z0-9]+/g, "-")`. -/
def createAnchorId (text : String) : String :=
  String.mk (collapseNonAlnumAux false (jsToLower text).toList)

/-- A `Section` of the Wikipedia converter (src/converters/wikipedia.ts):
`{ title: string; level?: number; id?: string; content: string }`. -/
structure Section where
  title : String
  level : Option Int
  id : Option String
  content : String
deriving Repr, DecidableEq

/-- `headingText`: `querySelector(".mw-headline")?.textContent ||
textContent?.trim()` — JavaScript `||` falls through on `null`/`undefined`
and on the empty string. -/
def headingTextOf (n : WikiNode) : String :=
  match n.headlineText with
  | some s => if s ≠ "" then s else jsTrim n.textContent
  | none => jsTrim n.textContent

/-- The `currentSection` opened when a heading node is encountered. -/
def headingSection (n : WikiNode) : Section :=
  ⟨headingTextOf n, some (headingLevel n.tagName),
    some (createAnchorId (headingTextOf n)), ""⟩

/-- Mutable state of the `parseSections` walk: the emitted sections, the
section opened by the last heading, the `inLeadSection` flag and the raw
HTML accumulation buffer. -/
structure ParseState where
  sections : List Section
  currentSection : Section
  inLeadSection : Bool
  currentHtml : String

/-- The lead buffer closes into the implicit Introduction section. -/
def introSection (content : String) : Section :=
  ⟨"Introduction", some 2, some "introduction", content⟩

/-- One iteration of the `mainContent.childNodes.forEach` body of
`parseSections`: skip untagged nodes; on a heading, flush a non-empty buffer
(as the Introduction if still in the lead, otherwise as a section carrying
only the previous heading's title) and open a new current section from the
heading; otherwise append the node's `outerHTML` to the buffer. -/
def parseStep (convert : String → String) (st : ParseState) (n : WikiNode) : ParseState :=
  if n.tagName = "" then st
  else if isHeadingTag n.tagName then
    let st1 :=
      if st.currentHtml ≠ "" then
        if st.inLeadSection then
          { st with
            sections := st.sections ++ [introSection (convert st.currentHtml)],
            inLeadSection := false,
            currentHtml := "" }
        else
          { st with
            sections := st.sections ++ [⟨st.currentSection.title, none, none,
              convert st.currentHtml⟩],
            currentHtml := "" }
      else st
    { st1 with currentSection := headingSection n }
  else
    { st with currentHtml := st.currentHtml ++ n.outerHTML }

/-- `WikipediaConverter.parseSections`: walk the top-level children, then
flush any remaining buffer into a final section that keeps the current
heading's title, level and id (the object spread `{...currentSection}`). -/
def parseSections (convert : String → String) (children : List WikiNode) : List Section :=
  let st := children.foldl (parseStep convert) ⟨[], ⟨"", none, none, ""⟩, true, ""⟩
  if st.currentHtml ≠ "" then
    st.sections ++ [{ st.currentSection with content := convert st.currentHtml }]
  else
    st.sections

/-- Concrete leading paragraph node. -/
def c4Para : WikiNode := ⟨"P", none, "x", "<p>x</p>"⟩

/-- Concrete first heading node. -/
def c4HeadA : WikiNode := ⟨"H2", none, "Alpha", "<h2>Alpha</h2>"⟩

/-- Concrete second heading node. -/
def c4HeadB : WikiNode := ⟨"H2", none, "Beta", "<h2>Beta</h2>"⟩

/-- Counterexample to C4 as stated: for a root whose children are a leading
paragraph followed by two heading nodes (and nothing else), `parseSections`
emits only the Introduction section — a heading followed by no content never
closes a section, so the two heading sections are missing and the count is 1,
not 3. -/
theorem c4_counterexample :
    parseSections (fun h => h) [c4Para, c4HeadA, c4HeadB] =
      [⟨"Introduction", some 2, some "introduction", "<p>x</p>"⟩] ∧
    (parseSections (fun h => h) [c4Para, c4HeadA, c4HeadB]).length ≠ 3 := by
  constructor
  · rfl
  · decide

theorem parseStep_skip (convert : String → String) (st : ParseState) (n : WikiNode)
    (h : n.tagName = "") : parseStep convert st n = st := by
  rw [parseStep, if_pos h]

theorem parseStep_content (convert : String → String) (st : ParseState) (n : WikiNode)
    (h1 : ¬n.tagName = "") (h2 : isHeadingTag n.tagName = false) :
    parseStep convert st n = { st with currentHtml := st.currentHtml ++ n.outerHTML } := by
  rw [parseStep, if_neg h1]
  simp [h2]

theorem parseStep_heading_lead (convert : String → String) (st : ParseState) (n : WikiNode)
    (h1 : ¬n.tagName = "") (h2 : isHeadingTag n.tagName = true)
    (h3 : ¬st.currentHtml = "") (h4 : st.inLeadSection = true) :
    parseStep convert st n =
      ⟨st.sections ++ [introSection (convert st.currentHtml)], headingSection n,
        false, ""⟩ := by
  rw [parseStep, if_neg h1]
  simp [h2, h3, h4]

theorem parseStep_heading_nonlead (convert : String → String) (st : ParseState) (n : WikiNode)
    (h1 : ¬n.tagName = "") (h2 : isHeadingTag n.tagName = true)
    (h3 : ¬st.currentHtml = "") (h4 : st.inLeadSection = false) :
    parseStep convert st n =
      ⟨st.sections ++ [⟨st.currentSection.title, none, none, convert st.currentHtml⟩],
        headingSection n, false, ""⟩ := by
  rw [parseStep, if_neg h1]
  simp [h2, h3, h4]

theorem parseStep_heading_emptybuf (convert : String → String) (st : ParseState) (n : WikiNode)
    (h1 : ¬n.tagName = "") (h2 : isHeadingTag n.tagName = true)
    (h3 : st.currentHtml = "") :
    parseStep convert st n = { st with currentSection := headingSection n } := by
  rw [parseStep, if_neg h1]
  simp [h2, h3]

theorem isHeadingTag_ne_empty {t : String} (h : isHeadingTag t = true) : ¬t = "" := by
  intro he
  subst he
  simp [isHeadingTag, String.toList] at h

/-- C4 amended: when the two headings each carry following non-heading
content, the walk yields exactly three sections in document order:
the Introduction (level 2, anchor id `introduction`) closing the lead
content, then a section titled by the first heading (its level and id are
dropped by the mid-walk flush), then the final section carrying the second
heading's title, level and anchor id. -/
theorem c4_amended_three_sections (convert : String → String)
    (lead cA cB hA hB : WikiNode)
    (hlead1 : ¬lead.tagName = "") (hlead2 : isHeadingTag lead.tagName = false)
    (hlead3 : ¬lead.outerHTML = "")
    (hA2 : isHeadingTag hA.tagName = true)
    (hcA1 : ¬cA.tagName = "") (hcA2 : isHeadingTag cA.tagName = false)
    (hcA3 : ¬cA.outerHTML = "")
    (hB2 : isHeadingTag hB.tagName = true)
    (hcB1 : ¬cB.tagName = "") (hcB2 : isHeadingTag cB.tagName = false)
    (hcB3 : ¬cB.outerHTML = "") :
    parseSections convert [lead, hA, cA, hB, cB] =
      [introSection (convert lead.outerHTML),
       ⟨headingTextOf hA, none, none, convert cA.outerHTML⟩,
       ⟨headingTextOf hB, some (headingLevel hB.tagName),
         some (createAnchorId (headingTextOf hB)), convert cB.outerHTML⟩] := by
  rw [parseSections]
  simp only [List.foldl_cons, List.foldl_nil]
  rw [parseStep_content convert _ lead hlead1 hlead2]
  rw [parseStep_heading_lead convert _ hA (isHeadingTag_ne_empty hA2) hA2
    (by simpa [String.empty_append] using hlead3) rfl]
  rw [parseStep_content convert _ cA hcA1 hcA2]
  rw [parseStep_heading_nonlead convert _ hB (isHeadingTag_ne_empty hB2) hB2
    (by simpa [String.empty_append] using hcA3) rfl]
  rw [parseStep_content convert _ cB hcB1 hcB2]
  simp only [String.empty_append]
  rw [if_pos hcB3]
  simp [headingSection, introSection]

/-- Witness for the amended C4 at concrete nodes. -/
theorem c4_amended_three_sections_witness :
    parseSections (fun h => h)
      [c4Para, c4HeadA, ⟨"P", none, "a", "<p>a</p>"⟩, c4HeadB,
        ⟨"P", none, "b", "<p>b</p>"⟩] =
      [introSection "<p>x</p>",
       ⟨"Alpha", none, none, "<p>a</p>"⟩,
       ⟨"Beta", some 2, some "beta", "<p>b</p>"⟩] := by
  have h := c4_amended_three_sections (fun h => h) c4Para
    ⟨"P", none, "a", "<p>a</p>"⟩ ⟨"P", none, "b", "<p>b</p>"⟩ c4HeadA c4HeadB
    (by decide) (by decide) (by decide) (by decide) (by decide) (by decide)
    (by decide) (by decide) (by decide) (by decide) (by decide)
  rw [h]
  rfl

/-!
Archive expander (`ZipConverter.convert`, src/converters/zip.ts).  The
filesystem and the unzipper are external collaborators: the joint outcome of
`unzipper.Extract(...).promise()` and `fs.readdirSync(extractionDir)` is a
parameter — either an extraction error (its message) or the list of entry
names found in the extraction directory.  `ZipRunResult.dirRemoved` records
whether the `fs.rmSync(extractionDir, ...)` statement executed; in the
source that statement sits inside the `try` block after the entry loop, not
in a `finally`.
-/

/-- `listStartsWith pat l` : does `l` start with `pat`? -/
def listStartsWith : List Char → List Char → Bool
  | [], _ => true
  | _ :: _, [] => false
  | p :: ps, c :: cs => p == c && listStartsWith ps cs

/-- Model of Node's `path.extname` for plain entry names: the suffix from
the last dot, except that a dot at position 0 starts no extension. -/
def extnameAux : List Char → Option (List Char)
  | [] => none
  | c :: cs =>
    match extnameAux cs with
    | some e => some e
    | none => if c = '.' then some ('.' :: cs) else none

/-- `path.extname(name)`. -/
def extname (name : String) : String :=
  match name.toList with
  | [] => ""
  | _ :: rest =>
    match extnameAux rest with
    | some e => String.mk e
    | none => ""

/-- Model of `path.join(a, b)` for the shapes used here. -/
def pathJoin (a b : String) : String :=
  if a = "." then b else a ++ "/" ++ b

/-- Model of `path.basename(p)`: the part after the last separator. -/
def pathBasename (p : String) : String :=
  String.mk ((p.toList.reverse.takeWhile (fun c => c != '/')).reverse)

/-- Model of `path.dirname(p)`: everything before the last separator, or
`"."` when there is none. -/
def pathDirname (p : String) : String :=
  let cs := p.toList
  if cs.contains '/' then
    String.mk (((cs.reverse.dropWhile (fun c => c != '/')).drop 1).reverse)
  else "."

/-- `path.basename(localPath, ".zip")`: the basename with one trailing
`.zip` removed if present. -/
def pathBasenameZip (p : String) : String :=
  let bl := (pathBasename p).toList
  if listStartsWith (".zip".toList.reverse) bl.reverse then
    String.mk (bl.take (bl.length - 4))
  else
    String.mk bl

/-- The extraction directory
`path.join(path.dirname(localPath), "extracted_" + path.basename(localPath, ".zip"))`. -/
def zipExtractionDir (localPath : String) : String :=
  pathJoin (pathDirname localPath) ("extracted_" ++ pathBasenameZip localPath)

/-- The leading line of the aggregated zip markdown. -/
def zipHeader (localPath : String) : String :=
  "Content from the zip file `" ++ pathBasename localPath ++ "`:\n\n"

/-- The synthetic result built in the `catch` block of `ZipConverter.convert`. -/
def zipErrorResult (localPath msg : String) : ConverterResult :=
  ⟨none, "[ERROR] Failed to process zip file " ++ localPath ++ ": " ++ msg⟩

/-- Result of one modelled `ZipConverter.convert` run. -/
structure ZipRunResult where
  result : Option ConverterResult
  dirRemoved : Bool
deriving Repr, DecidableEq

/-- Inner loop over `parentConverters` for one extracted entry: converters
that are `instanceof ZipConverter` are skipped (self-exclusion); otherwise
the entry is handed to `converter.convert`; the first non-null result wins
(`break`); there is no try/catch around the call, so a thrown error
propagates (`.error`).  `.ok none` means no converter accepted the entry. -/
def zipTryEntry (parentConverters : List Converter) (filePath fileExt : String) :
    Except String (Option ConverterResult) :=
  match parentConverters with
  | [] => .ok none
  | c :: rest =>
    if c.isZipConverter then zipTryEntry rest filePath fileExt
    else
      match c.convert filePath fileExt with
      | .throws msg => .error msg
      | .success r => .ok (some r)
      | .nullResult => zipTryEntry rest filePath fileExt

/-- The `for (const file of files)` walk: each successfully converted entry
appends a `## File:` sub-heading and its converted text; an entry no
converter accepts contributes nothing; a propagated converter throw aborts
the walk. -/
def zipProcessEntries (pcs : List Converter) (dir : String) :
    List String → Except String String
  | [] => .ok ""
  | name :: rest =>
    match zipTryEntry pcs (pathJoin dir name) (extname name) with
    | .error msg => .error msg
    | .ok none => zipProcessEntries pcs dir rest
    | .ok (some r) =>
      match zipProcessEntries pcs dir rest with
      | .error msg => .error msg
      | .ok tail =>
        .ok ("\n## File: " ++ name ++ "\n\n" ++ r.textContent ++ "\n\n" ++ tail)

/-- `ZipConverter.convert(localPath, options)`: bail on non-`.zip`
extensions; report missing converters as a synthetic textual result; then
extract, walk the entries, remove the extraction directory and return the
trimmed aggregate — or, if extraction or any entry conversion throws, return
the synthetic `[ERROR]` result from the `catch` block (skipping the
`rmSync`). -/
def zipConvertRun (pcs : List Converter) (localPath fileExtension : String)
    (extraction : Except String (List String)) : ZipRunResult :=
  if jsToLower fileExtension ≠ ".zip" then ⟨none, false⟩
  else if pcs.isEmpty then
    ⟨some ⟨none, "[ERROR] No converters available to process zip contents from: " ++
      localPath⟩, false⟩
  else
    match extraction with
    | .error msg => ⟨some (zipErrorResult localPath msg), false⟩
    | .ok entries =>
      match zipProcessEntries pcs (zipExtractionDir localPath) entries with
      | .error msg => ⟨some (zipErrorResult localPath msg), false⟩
      | .ok body => ⟨some ⟨none, jsTrim (zipHeader localPath ++ body)⟩, true⟩

/-- The contribution of a single extracted entry to the aggregated markdown. -/
def zipEntryBlock (pcs : List Converter) (dir name : String) : String :=
  match zipTryEntry pcs (pathJoin dir name) (extname name) with
  | .ok (some r) => "\n## File: " ++ name ++ "\n\n" ++ r.textContent ++ "\n\n"
  | _ => ""

/-- Right-fold concatenation of the per-entry blocks. -/
def concatBlocks (l : List String) : String :=
  l.foldr (fun a b => a ++ b) ""

theorem zipTryEntry_no_throw {pcs : List Converter} {fp ext : String}
    (h : ∀ c ∈ pcs, (c.convert fp ext).isThrows = false) :
    ∃ o, zipTryEntry pcs fp ext = .ok o := by
  induction pcs with
  | nil => exact ⟨none, rfl⟩
  | cons c rest ih =>
    have hrest : ∀ c' ∈ rest, (c'.convert fp ext).isThrows = false :=
      fun c' hc' => h c' (List.mem_cons_of_mem c hc')
    rw [zipTryEntry]
    by_cases hz : c.isZipConverter
    · simpa [hz] using ih hrest
    · simp only [hz, if_false]
      cases hc : c.convert fp ext with
      | throws msg =>
        have := h c (by simp)
        rw [hc] at this
        simp [ConvertOutcome.isThrows] at this
      | success r => exact ⟨some r, rfl⟩
      | nullResult => exact ih hrest

/-- C5 supporting lemma: when no converter throws during the walk, the walk
never aborts and produces exactly the concatenation of the per-entry
blocks (successful entries contribute their sub-heading and body, entries
no converter accepts contribute nothing). -/
theorem zipProcessEntries_no_throw {pcs : List Converter} {dir : String}
    {entries : List String}
    (h : ∀ name ∈ entries, ∀ c ∈ pcs,
      (c.convert (pathJoin dir name) (extname name)).isThrows = false) :
    zipProcessEntries pcs dir entries =
      .ok (concatBlocks (entries.map (zipEntryBlock pcs dir))) := by
  induction entries with
  | nil => rfl
  | cons name rest ih =>
    have hrest : ∀ n ∈ rest, ∀ c ∈ pcs,
        (c.convert (pathJoin dir n) (extname n)).isThrows = false :=
      fun n hn => h n (List.mem_cons_of_mem name hn)
    have hname : ∀ c ∈ pcs,
        (c.convert (pathJoin dir name) (extname name)).isThrows = false :=
      h name (by simp)
    rcases zipTryEntry_no_throw hname with ⟨o, ho⟩
    rw [zipProcessEntries, ho]
    cases o with
    | none =>
      rw [ih hrest]
      simp [concatBlocks, zipEntryBlock, ho, String.empty_append]
    | some r =>
      rw [ih hrest]
      simp [concatBlocks, zipEntryBlock, ho]

/-- C5 amended: during archive expansion, an entry that no converter accepts
is skipped silently — the walk continues and the aggregated result contains
the sub-headings and bodies of exactly the successfully converted entries —
provided no converter call throws; a converter that throws aborts the whole
walk (see the counterexample). -/
theorem c5_amended_silent_skip (pcs : List Converter) (localPath : String)
    (entries : List String) (hne : pcs ≠ [])
    (hnothrow : ∀ name ∈ entries, ∀ c ∈ pcs,
      (c.convert (pathJoin (zipExtractionDir localPath) name)
        (extname name)).isThrows = false) :
    zipConvertRun pcs localPath ".zip" (.ok entries) =
      ⟨some ⟨none, jsTrim (zipHeader localPath ++
        concatBlocks (entries.map (zipEntryBlock pcs (zipExtractionDir localPath))))⟩,
        true⟩ := by
  rw [zipConvertRun, if_neg (by decide)]
  have hempty : pcs.isEmpty = false := by
    cases pcs with
    | nil => exact absurd rfl hne
    | cons a l => rfl
  rw [hempty]
  simp only [Bool.false_eq_true, if_false]
  rw [zipProcessEntries_no_throw hnothrow]

/-- Converter that succeeds on `.txt` entries and returns null otherwise. -/
def wTxtOnly : Converter :=
  ⟨10, false, fun _ ext => if ext = ".txt" then .success ⟨none, "hi"⟩ else .nullResult⟩

/-- Witness for the amended C5 at a concrete input: one convertible text
entry and one entry of an unrecognized extension; the walk keeps the first
entry's sub-heading and body and silently contributes nothing for the
second. -/
theorem c5_amended_silent_skip_witness :
    zipConvertRun [wTxtOnly] "arc.zip" ".zip" (.ok ["hi.txt", "weird.xyz"]) =
      ⟨some ⟨none, jsTrim (zipHeader "arc.zip" ++
        concatBlocks (["hi.txt", "weird.xyz"].map
          (zipEntryBlock [wTxtOnly] (zipExtractionDir "arc.zip"))))⟩, true⟩ ∧
    zipEntryBlock [wTxtOnly] (zipExtractionDir "arc.zip") "weird.xyz" = "" ∧
    zipEntryBlock [wTxtOnly] (zipExtractionDir "arc.zip") "hi.txt" =
      "\n## File: hi.txt\n\nhi\n\n" := by
  refine ⟨?_, by decide, by decide⟩
  exact c5_amended_silent_skip [wTxtOnly] "arc.zip" ["hi.txt", "weird.xyz"]
    (List.cons_ne_nil _ _) (by decide)

/-- Converter that throws on `.txt` entries and succeeds on anything else. -/
def cexThrowTxt : Converter :=
  ⟨0, false, fun _ ext =>
    if ext = ".txt" then .throws "boom" else .success ⟨none, "hi"⟩⟩

/-- Counterexample to C5 as stated: a converter that throws on the first
entry aborts the walk — the conversion returns the synthetic `[ERROR]`
result and the second entry's sub-heading and body are lost, even though
dispatching the second entry alone succeeds (second conjunct).  A per-entry
converter throw is therefore not skipped silently. -/
theorem c5_counterexample :
    zipConvertRun [cexThrowTxt] "arc.zip" ".zip" (.ok ["a.txt", "b.md"]) =
      ⟨some (zipErrorResult "arc.zip" "boom"), false⟩ ∧
    zipConvertRun [cexThrowTxt] "arc.zip" ".zip" (.ok ["b.md"]) =
      ⟨some ⟨none, jsTrim (zipHeader "arc.zip" ++ "\n## File: b.md\n\nhi\n\n")⟩,
        true⟩ :=
  ⟨rfl, rfl⟩

/-- C6 (code bug): the `fs.rmSync(extractionDir, ...)` cleanup sits inside
the `try` block after the entry loop rather than in a `finally`, so on the
exit path where a converter throws during entry processing the `catch`
returns the `[ERROR]` result without removing the extraction directory
(`dirRemoved = false`), although extraction had succeeded; on the success
path the directory is removed (`dirRemoved = true`, second conjunct). -/
theorem c6_cleanup_skipped_on_throw :
    zipConvertRun [cexThrowTxt] "docs.zip" ".zip" (.ok ["notes.txt"]) =
      ⟨some (zipErrorResult "docs.zip" "boom"), false⟩ ∧
    zipConvertRun [cexThrowTxt] "docs.zip" ".zip" (.ok ["notes.md"]) =
      ⟨some ⟨none, jsTrim (zipHeader "docs.zip" ++ "\n## File: notes.md\n\nhi\n\n")⟩,
        true⟩ :=
  ⟨rfl, rfl⟩

theorem zipTryEntry_all_null {pcs : List Converter} {fp ext : String}
    (h : ∀ c ∈ pcs, c.isZipConverter = false → c.convert fp ext = .nullResult) :
    zipTryEntry pcs fp ext = .ok none := by
  induction pcs with
  | nil => rfl
  | cons c cs ih =>
    have hcs : ∀ c' ∈ cs, c'.isZipConverter = false → c'.convert fp ext = .nullResult :=
      fun c' hc' => h c' (List.mem_cons_of_mem c hc')
    by_cases hz : c.isZipConverter
    · simp [zipTryEntry, hz, ih hcs]
    · have hc := h c (by simp) (Bool.eq_false_iff.mpr hz)
      simp [zipTryEntry, hz, hc, ih hcs]

/-- C8: the archive expander's self-exclusion.  First conjunct: the entry
loop behaves exactly as if every `instanceof ZipConverter` converter had
been removed from the list — a zip converter is never consulted for an
entry, so archive expansion is never re-entered.  Second conjunct: an inner
entry that only the excluded zip converter would accept (every non-zip
converter returns null for it) is skipped entirely and the walk simply
continues with the remaining entries. -/
theorem c8_nested_archive_not_expanded :
    (∀ (pcs : List Converter) (fp ext : String),
      zipTryEntry pcs fp ext =
        zipTryEntry (pcs.filter (fun c => !c.isZipConverter)) fp ext) ∧
    (∀ (pcs : List Converter) (dir name : String) (rest : List String),
      (∀ c ∈ pcs, c.isZipConverter = false →
        c.convert (pathJoin dir name) (extname name) = .nullResult) →
      zipProcessEntries pcs dir (name :: rest) = zipProcessEntries pcs dir rest) := by
  constructor
  · intro pcs fp ext
    induction pcs with
    | nil => rfl
    | cons c rest ih =>
      by_cases hz : c.isZipConverter
      · simp [zipTryEntry, hz, ih, List.filter_cons]
      · cases hc : c.convert fp ext with
        | throws msg => simp [zipTryEntry, hz, hc, List.filter_cons]
        | success r => simp [zipTryEntry, hz, hc, List.filter_cons]
        | nullResult => simp [zipTryEntry, hz, hc, ih, List.filter_cons]
  · intro pcs dir name rest h
    rw [zipProcessEntries, zipTryEntry_all_null h]

/-- A zip-typed converter that would expand any entry if it were consulted. -/
def wZipSelf : Converter :=
  ⟨0, true, fun _ _ => .success ⟨none, "inner zip expanded"⟩⟩

/-- Witness for C8 at a concrete input: an inner `.zip` entry alongside a
text entry; the zip converter is skipped, no non-zip converter accepts the
inner archive, and the walk continues exactly as if the inner archive were
absent. -/
theorem c8_nested_archive_not_expanded_witness :
    zipProcessEntries [wZipSelf, wTxtOnly] "d" ["inner.zip", "hi.txt"] =
      zipProcessEntries [wZipSelf, wTxtOnly] "d" ["hi.txt"] :=
  c8_nested_archive_not_expanded.2 [wZipSelf, wTxtOnly] "d" "inner.zip" ["hi.txt"]
    (by decide)

/-!
The custom Turndown rules of `CustomMarkdownConverter`
(src/converters/customMarkdown.ts).  The rules' replacement functions are
pure functions of the rendered child content and the attributes of the node
(and, for images, the parent's `nodeName` and the configured
`keepInlineImages` option); they are embedded directly.
-/

/-- `s.replace(pat, repl)` with a global literal pattern: leftmost,
non-overlapping replacement of every occurrence, over character lists. -/
def replaceList (pat repl : List Char) : List Char → List Char
  | [] => []
  | c :: cs =>
    if h : listStartsWith pat (c :: cs) ∧ pat ≠ [] then
      repl ++ replaceList pat repl ((c :: cs).drop pat.length)
    else c :: replaceList pat repl cs
termination_by l => l.length
decreasing_by
  · simp only [List.length_drop, List.length_cons]
    have hp : 0 < pat.length := List.length_pos.mpr h.2
    omega
  · simp only [List.length_cons]
    omega

/-- JavaScript `s.replace(/pat/g, repl)` for a literal pattern. -/
def jsReplaceAll (s pat repl : String) : String :=
  String.mk (replaceList pat.toList repl.toList s.toList)

/-- JavaScript truthiness of a `getAttribute` result: `null` and the empty
string are falsy. -/
def jsStr : Option String → Option String
  | some s => if s = "" then none else some s
  | none => none

/-- Characters allowed after the first character of a URL scheme. -/
def isSchemeChar (c : Char) : Bool :=
  c.isAlphanum || c == '+' || c == '-' || c == '.'

/-- The characters before the first `:`, or `none` when there is no colon. -/
def schemeSplit : List Char → Option (List Char)
  | [] => none
  | ':' :: _ => some []
  | c :: rest =>
    match schemeSplit rest with
    | some s => some (c :: s)
    | none => none

/-- Scheme extraction of the WHATWG `new URL(href)` constructor (an external
runtime builtin): `url.protocol` is the lowercased scheme before the first
`:`; the constructor throws when no valid `scheme:` prefix is present (an
ASCII letter followed by letters, digits, `+`, `-`, `.`).  Only the
protocol and parse success are modelled; the pathname re-encoding applied
to accepted URLs is abstracted by the `reencode` parameter of
`linkReplacement`. -/
def urlProtocol (href : String) : Option String :=
  match schemeSplit href.toList with
  | none => none
  | some [] => none
  | some (c0 :: cs) =>
    if c0.isAlpha && cs.all isSchemeChar then
      some (String.mk ((c0 :: cs).map Char.toLower) ++ ":")
    else none

/-- The `link` rule's replacement function: trim the rendered content and
drop empty links; for a truthy `href`, accept only the `http:`, `https:`
and `file:` protocols (any other scheme, or an unparsable URL, degrades the
link to its text content); emit the `<href>` autolink form when the content
(with escaped underscores unescaped) equals the href and there is no title,
otherwise emit `[content](href "title")`. -/
def linkReplacement (reencode : String → String) (content0 : String)
    (hrefAttr titleAttr : Option String) : String :=
  let content := jsTrim content0
  if content = "" then ""
  else
    let title := jsStr titleAttr
    match jsStr hrefAttr with
    | none => content
    | some h =>
      match urlProtocol h with
      | none => content
      | some proto =>
        if proto = "http:" ∨ proto = "https:" ∨ proto = "file:" then
          let href := reencode h
          if jsReplaceAll content "\\_" "_" = href ∧ title = none then
            "<" ++ href ++ ">"
          else
            "[" ++ content ++ "](" ++ href ++
              (match title with
               | some t => " \"" ++ jsReplaceAll t "\"" "\\\"" ++ "\""
               | none => "") ++ ")"
        else content

/-- C7: an anchor whose `href` parses as a URL with a scheme outside
`{http, https, file}` (e.g. `javascript:`) renders as its trimmed text
content only — no Markdown link syntax is emitted and the href is
discarded. -/
theorem c7_link_scheme_sanitization (reencode : String → String) (content0 : String)
    (titleAttr : Option String) (h proto : String)
    (hparse : urlProtocol h = some proto)
    (hproto : ¬(proto = "http:" ∨ proto = "https:" ∨ proto = "file:"))
    (hne : h ≠ "") :
    linkReplacement reencode content0 (some h) titleAttr = jsTrim content0 := by
  rw [linkReplacement]
  by_cases hc : jsTrim content0 = ""
  · simp [hc]
  · simp only [hc, if_neg hc, jsStr, if_neg hne, hparse, if_neg hproto]
    simp [hne, hparse, hproto]

/-- Witness for C7: `<a href="javascript:alert(1)">x</a>` renders to the
string `x`. -/
theorem c7_link_scheme_sanitization_witness :
    urlProtocol "javascript:alert(1)" = some "javascript:" ∧
    linkReplacement (fun s => s) "x" (some "javascript:alert(1)") none = "x" := by
  refine ⟨by decide, ?_⟩
  exact (c7_link_scheme_sanitization (fun s => s) "x" none "javascript:alert(1)"
    "javascript:" (by decide) (by decide) (by decide)).trans (by decide)

/-- The `image` rule's replacement function: `keepInlineImages` is the
configured whitelist (`none` models an undefined option; the constructor
defaults it to `[]`), `parentNodeName` the `nodeName` of the image's
immediate parent (`none` when the node has no parent).  When the parent
exists and its lowercased tag is not whitelisted (or the whitelist is
undefined), only the alt text is emitted; otherwise a `data:` src is
truncated at its first comma with an ellipsis and `![alt](src "title")` is
emitted. -/
def imageReplacement (keepInlineImages : Option (List String))
    (altAttr srcAttr titleAttr : Option String) (parentNodeName : Option String) :
    String :=
  let alt := altAttr.getD ""
  let src0 := srcAttr.getD ""
  let title := titleAttr.getD ""
  let titlePart :=
    if title ≠ "" then " \"" ++ jsReplaceAll title "\"" "\\\"" ++ "\"" else ""
  let dropToAlt : Bool :=
    match parentNodeName with
    | none => false
    | some p =>
      match keepInlineImages with
      | none => true
      | some l => !(l.contains (jsToLower p))
  if dropToAlt then alt
  else
    let src :=
      if listStartsWith "data:".toList src0.toList then
        String.mk (src0.toList.takeWhile (fun c => c != ',')) ++ "..."
      else src0
    "![" ++ alt ++ "](" ++ src ++ titlePart ++ ")"

/-- C9: an image whose immediate parent tag is not in the `keepInlineImages`
whitelist — including when the whitelist is undefined or empty, its default
— renders as its alt text only; only a whitelisted parent yields the
`![alt](src "title")` image syntax. -/
theorem c9_image_parent_whitelist (l : List String)
    (altAttr srcAttr titleAttr : Option String) (p : String) :
    (imageReplacement none altAttr srcAttr titleAttr (some p) = altAttr.getD "") ∧
    (l.contains (jsToLower p) = false →
      imageReplacement (some l) altAttr srcAttr titleAttr (some p) = altAttr.getD "") ∧
    (l.contains (jsToLower p) = true →
      imageReplacement (some l) altAttr srcAttr titleAttr (some p) =
        "![" ++ altAttr.getD "" ++ "](" ++
          (if listStartsWith "data:".toList (srcAttr.getD "").toList then
            String.mk ((srcAttr.getD "").toList.takeWhile (fun c => c != ',')) ++ "..."
          else srcAttr.getD "") ++
          (if titleAttr.getD "" ≠ "" then
            " \"" ++ jsReplaceAll (titleAttr.getD "") "\"" "\\\"" ++ "\""
          else "") ++ ")") := by
  refine ⟨by simp [imageReplacement], ?_, ?_⟩
  · intro hmem
    have hm : jsToLower p ∉ l := by simpa using hmem
    simp [imageReplacement, hm]
  · intro hmem
    have hm : jsToLower p ∈ l := by simpa using hmem
    simp [imageReplacement, hm]

/-- Witness for C9 at concrete inputs: with whitelist `["figure"]`, a
`SPAN` parent drops the image to its alt text; a `FIGURE` parent emits
image syntax (with a truncated `data:` src); and with the default empty
whitelist the image is always dropped to alt text. -/
theorem c9_image_parent_whitelist_witness :
    imageReplacement (some ["figure"]) (some "pic") (some "a.png") none (some "SPAN") =
      "pic" ∧
    imageReplacement (some ["figure"]) (some "pic") (some "data:image/png;base64,AAAA")
      none (some "FIGURE") = "![pic](data:image/png;base64...)" ∧
    imageReplacement (some []) (some "pic") (some "a.png") none (some "FIGURE") =
      "pic" := by
  refine ⟨?_, ?_, ?_⟩
  · exact (c9_image_parent_whitelist ["figure"] (some "pic") (some "a.png") none
      "SPAN").2.1 (by decide)
  · exact ((c9_image_parent_whitelist ["figure"] (some "pic")
      (some "data:image/png;base64,AAAA") none "FIGURE").2.2 (by decide)).trans
      (by decide)
  · exact (c9_image_parent_whitelist [] (some "pic") (some "a.png") none
      "FIGURE").2.1 (by decide)

/-!
`MarkItDown.convert`'s mutation of the caller-supplied `options` object
(src/markitdown.ts).  A JavaScript object is modelled as an association
list of (property, value) pairs over an opaque value type; property
assignment replaces the value in place if the key is present and appends
the property otherwise.
-/

/-- JavaScript property assignment `obj[k] = v`. -/
def setField {α : Type} : List (String × α) → String → α → List (String × α)
  | [], k, v => [(k, v)]
  | (k', v') :: rest, k, v =>
    if k' = k then (k, v) :: rest else (k', v') :: setField rest k v

/-- JavaScript property lookup `obj[k]`. -/
def getField {α : Type} : List (String × α) → String → Option α
  | [], _ => none
  | (k', v') :: rest, k => if k' = k then some v' else getField rest k

/-- The four private fields of a `MarkItDown` instance that `convert` copies
into `options`. -/
structure MarkItDownInst (α : Type) where
  pageConverters : α
  requestsSession : α
  llmCall : α
  styleMap : α

/-- The first four statements of `MarkItDown.convert`:
`options.parentConverters = this._pageConverters;
options.requestsSession = this._requestsSession;
options.llmCall = this._llmCall; options.styleMap = this._styleMap` —
assignments performed on the caller's `options` object itself. -/
def convertSetOptions {α : Type} (inst : MarkItDownInst α)
    (options : List (String × α)) : List (String × α) :=
  setField (setField (setField (setField options
    "parentConverters" inst.pageConverters)
    "requestsSession" inst.requestsSession)
    "llmCall" inst.llmCall)
    "styleMap" inst.styleMap

/-- The URL test applied to a string source in `MarkItDown.convert`:
`/^https?:\/\//.test(source) || source.startsWith("file://")`. -/
def isUrlSource (source : String) : Bool :=
  listStartsWith "http://".toList source.toList ||
  listStartsWith "https://".toList source.toList ||
  listStartsWith "file://".toList source.toList

/-- The full pre-dispatch mutation of the caller's `options` object in
`MarkItDown.convert` for a string source: the four instance-field
assignments, followed by `options.url = source;` when the source is an
`http(s)://` or `file://` URL (the branch that then calls `convertUrl`).
For a non-URL string source (and for a stream source, which never reaches
the string branch) no `url` assignment happens.  `strVal` embeds the
JavaScript string `source` into the option-value universe. -/
def convertMutateOptions {α : Type} (inst : MarkItDownInst α) (strVal : String → α)
    (source : String) (options : List (String × α)) : List (String × α) :=
  let o := convertSetOptions inst options
  if isUrlSource source then setField o "url" (strVal source) else o

theorem getField_setField_same {α : Type} (o : List (String × α)) (k : String) (v : α) :
    getField (setField o k v) k = some v := by
  induction o with
  | nil => simp [setField, getField]
  | cons kv rest ih =>
    by_cases h : kv.1 = k
    · simp [setField, getField, h]
    · simp [setField, getField, h, ih]

theorem getField_setField_other {α : Type} (o : List (String × α)) (k k' : String)
    (v : α) (h : k' ≠ k) :
    getField (setField o k' v) k = getField o k := by
  induction o with
  | nil => simp [setField, getField, h]
  | cons kv rest ih =>
    by_cases hk : kv.1 = k'
    · simp [setField, getField, hk, h]
    · simp only [setField, hk, if_neg hk]
      by_cases hk2 : kv.1 = k
      · simp [getField, hk2]
      · simp [getField, hk2, ih]

/-- Characterization of the four-assignment prefix of `MarkItDown.convert`:
`convertSetOptions` overwrites exactly the `parentConverters`,
`requestsSession`, `llmCall` and `styleMap` properties with the instance's
values and leaves every other property unchanged. -/
theorem getField_convertSetOptions {α : Type} (inst : MarkItDownInst α)
    (options : List (String × α)) :
    getField (convertSetOptions inst options) "parentConverters" =
      some inst.pageConverters ∧
    getField (convertSetOptions inst options) "requestsSession" =
      some inst.requestsSession ∧
    getField (convertSetOptions inst options) "llmCall" = some inst.llmCall ∧
    getField (convertSetOptions inst options) "styleMap" = some inst.styleMap ∧
    ∀ k, k ∉ ["parentConverters", "requestsSession", "llmCall", "styleMap"] →
      getField (convertSetOptions inst options) k = getField options k := by
  refine ⟨?_, ?_, ?_, ?_, ?_⟩
  · rw [convertSetOptions,
      getField_setField_other _ _ _ _ (by decide),
      getField_setField_other _ _ _ _ (by decide),
      getField_setField_other _ _ _ _ (by decide),
      getField_setField_same]
  · rw [convertSetOptions,
      getField_setField_other _ _ _ _ (by decide),
      getField_setField_other _ _ _ _ (by decide),
      getField_setField_same]
  · rw [convertSetOptions,
      getField_setField_other _ _ _ _ (by decide),
      getField_setField_same]
  · rw [convertSetOptions, getField_setField_same]
  · intro k hk
    simp only [List.mem_cons, List.mem_singleton, not_or] at hk
    obtain ⟨h1, h2, h3, h4, -⟩ := hk
    rw [convertSetOptions,
      getField_setField_other _ _ _ _ (fun he => h4 he.symm),
      getField_setField_other _ _ _ _ (fun he => h3 he.symm),
      getField_setField_other _ _ _ _ (fun he => h2 he.symm),
      getField_setField_other _ _ _ _ (fun he => h1 he.symm)]

/-- Counterexample to C10 as stated: for a URL-string source,
`MarkItDown.convert` also executes `options.url = source;` before dispatch,
so a caller-placed `url` property — which is not among the four listed
fields — is overwritten too: the frame "all other fields of options are
left unchanged" is false. -/
theorem c10_counterexample :
    getField (convertMutateOptions (⟨"pc", "rs", "llm", "sm"⟩ : MarkItDownInst String)
      (fun s => s) "https://example.com/a" [("url", "caller")]) "url" =
      some "https://example.com/a" ∧
    getField [("url", "caller")] "url" = some "caller" ∧
    "url" ∉ ["parentConverters", "requestsSession", "llmCall", "styleMap"] := by
  refine ⟨?_, by decide, by decide⟩
  decide

/-- C10 amended: `MarkItDown.convert` mutates the caller-supplied `options`
object in place before dispatch: `parentConverters`, `requestsSession`,
`llmCall` and `styleMap` are always overwritten with the instance's values;
additionally, when the string source is an `http(s)://` or `file://` URL,
`url` is overwritten with the source.  Every property other than these five
is left unchanged, and `url` too is unchanged for non-URL sources. -/
theorem c10_convert_mutates_options {α : Type} (inst : MarkItDownInst α)
    (strVal : String → α) (source : String) (options : List (String × α)) :
    getField (convertMutateOptions inst strVal source options) "parentConverters" =
      some inst.pageConverters ∧
    getField (convertMutateOptions inst strVal source options) "requestsSession" =
      some inst.requestsSession ∧
    getField (convertMutateOptions inst strVal source options) "llmCall" =
      some inst.llmCall ∧
    getField (convertMutateOptions inst strVal source options) "styleMap" =
      some inst.styleMap ∧
    (isUrlSource source = true →
      getField (convertMutateOptions inst strVal source options) "url" =
        some (strVal source)) ∧
    (isUrlSource source = false →
      getField (convertMutateOptions inst strVal source options) "url" =
        getField options "url") ∧
    ∀ k, k ∉ ["parentConverters", "requestsSession", "llmCall", "styleMap", "url"] →
      getField (convertMutateOptions inst strVal source options) k =
        getField options k := by
  have base := getField_convertSetOptions inst options
  by_cases hurl : isUrlSource source = true
  · rw [convertMutateOptions]
    simp only [hurl, if_true]
    refine ⟨?_, ?_, ?_, ?_, ?_, ?_, ?_⟩
    · rw [getField_setField_other _ _ _ _ (by decide)]
      exact base.1
    · rw [getField_setField_other _ _ _ _ (by decide)]
      exact base.2.1
    · rw [getField_setField_other _ _ _ _ (by decide)]
      exact base.2.2.1
    · rw [getField_setField_other _ _ _ _ (by decide)]
      exact base.2.2.2.1
    · intro _
      exact getField_setField_same _ _ _
    · intro hfalse
      exact absurd hfalse (by decide)
    · intro k hk
      simp only [List.mem_cons, List.mem_singleton, not_or] at hk
      obtain ⟨h1, h2, h3, h4, h5, -⟩ := hk
      rw [getField_setField_other _ _ _ _ (fun he => h5 he.symm)]
      exact base.2.2.2.2 k (by simp [h1, h2, h3, h4])
  · have hfalse : isUrlSource source = false := Bool.eq_false_iff.mpr hurl
    rw [convertMutateOptions]
    simp only [hfalse, Bool.false_eq_true, if_false]
    refine ⟨base.1, base.2.1, base.2.2.1, base.2.2.2.1, ?_, ?_, ?_⟩
    · intro htrue
      exact absurd htrue (by decide)
    · intro _
      exact base.2.2.2.2 "url" (by decide)
    · intro k hk
      simp only [List.mem_cons, List.mem_singleton, not_or] at hk
      obtain ⟨h1, h2, h3, h4, -⟩ := hk
      exact base.2.2.2.2 k (by simp [h1, h2, h3, h4])

/-- Witness for the amended C10 at concrete inputs: for a URL source the
caller's `url` and `llmCall` values are overwritten while an unrelated
property (`depth`) is unchanged; for a non-URL source the caller's `url`
value is unchanged. -/
theorem c10_convert_mutates_options_witness :
    isUrlSource "https://example.com/a" = true ∧
    getField (convertMutateOptions (⟨"pc", "rs", "llm", "sm"⟩ : MarkItDownInst String)
      (fun s => s) "https://example.com/a" [("url", "caller"), ("depth", "9")]) "url" =
      some "https://example.com/a" ∧
    getField (convertMutateOptions (⟨"pc", "rs", "llm", "sm"⟩ : MarkItDownInst String)
      (fun s => s) "https://example.com/a" [("url", "caller"), ("depth", "9")])
      "llmCall" = some "llm" ∧
    getField (convertMutateOptions (⟨"pc", "rs", "llm", "sm"⟩ : MarkItDownInst String)
      (fun s => s) "https://example.com/a" [("url", "caller"), ("depth", "9")]) "depth" =
      getField [("url", "caller"), ("depth", "9")] "depth" ∧
    isUrlSource "doc.docx" = false ∧
    getField (convertMutateOptions (⟨"pc", "rs", "llm", "sm"⟩ : MarkItDownInst String)
      (fun s => s) "doc.docx" [("url", "caller")]) "url" =
      getField [("url", "caller")] "url" := by
  refine ⟨by decide, ?_, ?_, ?_, by decide, ?_⟩
  · exact (c10_convert_mutates_options (⟨"pc", "rs", "llm", "sm"⟩ : MarkItDownInst String)
      (fun s => s) "https://example.com/a"
      [("url", "caller"), ("depth", "9")]).2.2.2.2.1 (by decide)
  · exact (c10_convert_mutates_options (⟨"pc", "rs", "llm", "sm"⟩ : MarkItDownInst String)
      (fun s => s) "https://example.com/a"
      [("url", "caller"), ("depth", "9")]).2.2.1
  · exact (c10_convert_mutates_options (⟨"pc", "rs", "llm", "sm"⟩ : MarkItDownInst String)
      (fun s => s) "https://example.com/a"
      [("url", "caller"), ("depth", "9")]).2.2.2.2.2.2 "depth" (by decide)
  · exact (c10_convert_mutates_options (⟨"pc", "rs", "llm", "sm"⟩ : MarkItDownInst String)
      (fun s => s) "doc.docx" [("url", "caller")]).2.2.2.2.2.1 (by decide)

end MarkItDownJS
